import Mathlib

/-!
Verification development for the matrirc bouncer.

We give a shallow embedding of the parts of the program that the checked
properties speak about:

* `src/state.rs` — the encrypted credential store (`encrypt_blob`,
  `decrypt_blob`, `create_user`, `login`), with the external crypto and
  JSON libraries abstracted as an environment of (de)serializers and an
  AEAD cipher;
* `src/matrix/room_mappings.rs` — the room↔target mapping engine
  (`sanitize`, `insert_deduped`, `fill_room_members`, `member_join`,
  `member_part`, `try_room_target`, `room_target`), with Rust `HashMap`s
  embedded as Mathlib association lists (`AList`);
* `src/matrix/time.rs` and the per-event-handler rendering in
  `src/matrix/sync_room_message.rs`, `sync_reaction.rs`,
  `sync_room_member.rs` — event handlers modelled as pure functions from
  the event and its environment to the list of side-effecting calls they
  perform (enqueue an IRC frame, store into the recent-message cache, ...);
* `src/ircd/proto.rs` — the outbound queue writer `ircd_sync_write`;
* `src/matrirc.rs` — the tri-state `Running` flag and `stop`.

Machine integers do not matter here (the only arithmetic is on timestamps
and loop counters, far from overflow); Rust's saturating
`checked_sub(10).unwrap_or(0)` on `u64` is `Nat` subtraction.
-/

/-! ## String-keyed maps (Rust `HashMap<String, V>`)

A Rust `HashMap` is embedded as a Mathlib `AList` over `String` keys:
`insert` replaces an existing binding, keys are unique.  -/

abbrev SMap (V : Type) := AList (fun _ : String => V)

namespace Matrirc

/-! ## Decimal rendering of the dedup counter

`insert_deduped` builds candidate keys with `format!("{}_{}", orig_key,
count)`; `{}` renders the counter in decimal.  We embed decimal rendering
structurally (repeated divmod 10) and prove it injective, which is what
makes the candidate keys `c, c_2, c_3, …` pairwise distinct.  -/

/-- Little-endian decimal digits of `n`, with explicit fuel (`fuel ≥ n`
suffices). -/
def decimalDigitsAux : Nat → Nat → List Nat
  | 0, _ => []
  | fuel + 1, n => if n = 0 then [] else n % 10 :: decimalDigitsAux fuel (n / 10)

/-- Little-endian decimal digits of `n` (empty for 0). -/
def decimalDigits (n : Nat) : List Nat := decimalDigitsAux n n

/-- Fold decimal digits back into the number: left inverse of
`decimalDigits`. -/
def undigits (l : List Nat) : Nat := l.foldr (fun d acc => d + 10 * acc) 0

/-- One decimal digit as a character, as Rust's `Display` renders it. -/
def digitChar (d : Nat) : Char :=
  match d with
  | 0 => '0' | 1 => '1' | 2 => '2' | 3 => '3' | 4 => '4'
  | 5 => '5' | 6 => '6' | 7 => '7' | 8 => '8' | 9 => '9'
  | _ => '*'

/-- The decimal string (as a character list) for `n`, matching Rust's
`format!("{}", n)`. -/
def decimalChars (n : Nat) : List Char :=
  if n = 0 then ['0'] else ((decimalDigits n).reverse.map digitChar)

/-- Decode a decimal digit character back to its value. -/
def charVal (c : Char) : Nat :=
  match c with
  | '0' => 0 | '1' => 1 | '2' => 2 | '3' => 3 | '4' => 4
  | '5' => 5 | '6' => 6 | '7' => 7 | '8' => 8 | '9' => 9
  | _ => 0

/-- Decode a big-endian decimal character string: left inverse of
`decimalChars`. -/
def charsVal (l : List Char) : Nat :=
  l.reverse.foldr (fun c acc => charVal c + 10 * acc) 0

/-! ## `sanitize` (room_mappings.rs)

`Regex::new("[^a-zA-Z_-]+")` with `replace_all(_, "")` keeps exactly the
characters in `[a-zA-Z_-]`.  -/

/-- Whether a character survives `sanitize` (is in `[a-zA-Z_-]`). -/
def isTargetChar (c : Char) : Bool :=
  ('a' ≤ c && c ≤ 'z') || ('A' ≤ c && c ≤ 'Z') || c = '_' || c = '-'

/-- `sanitize` from room_mappings.rs: strip every character matching
`[^a-zA-Z_-]`. -/
def sanitize (s : String) : String := ⟨s.data.filter isTargetChar⟩

/-! ## `insert_deduped` (room_mappings.rs)

The source tries the candidate keys `orig`, `orig_2`, `orig_3`, … in order
and inserts the value under the first one not present in the map.  -/

/-- The `count`-th candidate key: `orig` for `count = 1`, and
`format!("{}_{}", orig, count)` afterwards. -/
def dedupKey (orig : String) (count : Nat) : String :=
  if count = 1 then orig else ⟨orig.data ++ '_' :: decimalChars count⟩

/-- The loop body of `insert_deduped`: starting from candidate number
`count`, find the first vacant candidate and insert there.  The fuel is
an artifact of the embedding; `insertDeduped` passes one more than the
map size, which always suffices (`insertDeduped_eq`). -/
def insertDedupedGo {V : Type} (orig : String) (v : V) :
    Nat → Nat → SMap V → String × SMap V
  | count, 0, m => (dedupKey orig count, m.insert (dedupKey orig count) v)
  | count, fuel + 1, m =>
    let key := dedupKey orig count
    if key ∈ m then insertDedupedGo orig v (count + 1) fuel m
    else (key, m.insert key v)

/-- `insert_deduped` from room_mappings.rs. -/
def insertDeduped {V : Type} (m : SMap V) (origKey : String) (v : V) :
    String × SMap V :=
  insertDedupedGo origKey v 1 (m.entries.length + 1) m

/-- `n` successive `insert_deduped` calls with the same candidate:
returns the list of produced keys and the final map. -/
def repeatInsertDeduped {V : Type} (c : String) (v : V) :
    Nat → SMap V → List String × SMap V
  | 0, m => ([], m)
  | n + 1, m =>
    let r := insertDeduped m c v
    let rest := repeatInsertDeduped c v n r.2
    (r.1 :: rest.1, rest.2)

/-! ## Credential store (state.rs)

Byte strings are `List Nat`.  The external collaborators — serde_json,
Argon2 and XChaCha20-Poly1305 — are abstracted as a `CryptoEnv` record;
the store's control flow (`decrypt_blob`, `encrypt_blob`, `create_user`,
`login`) is translated from state.rs.  The fresh `salt`/`nonce` that
state.rs draws from `OsRng` are explicit arguments.  -/

/-- `SerializedMatrixSession` from state.rs. -/
structure SerializedMatrixSession where
  access_token : String
  refresh_token : Option String
  user_id : String
  device_id : String
deriving DecidableEq

/-- `Session` from state.rs (what the blob plaintext serializes). -/
structure Session where
  homeserver : String
  matrix_session : SerializedMatrixSession
deriving DecidableEq

/-- `Blob` from state.rs ( `{version, ciphertext, salt, nonce}` ). -/
structure Blob where
  version : String
  ciphertext : List Nat
  salt : List Nat
  nonce : List Nat
deriving DecidableEq

/-- The data `encrypt_blob` pulls out of the matrix-sdk `AuthSession`
argument (`meta`, tokens). -/
structure AuthSessionData where
  access_token : String
  refresh_token : Option String
  user_id : String
  device_id : String
deriving DecidableEq

/-- The `Session` value `encrypt_blob` builds from its arguments. -/
def sessionOfAuth (homeserver : String) (a : AuthSessionData) : Session :=
  { homeserver := homeserver
    matrix_session :=
      { access_token := a.access_token
        refresh_token := a.refresh_token
        user_id := a.user_id
        device_id := a.device_id } }

/-- External collaborators of state.rs: serde_json on `Session` and
`Blob`, Argon2 key derivation, XChaCha20-Poly1305 AEAD. -/
structure CryptoEnv where
  kdf : String → List Nat → Option (List Nat)
  aeadEncrypt : List Nat → List Nat → List Nat → Option (List Nat)
  aeadDecrypt : List Nat → List Nat → List Nat → Option (List Nat)
  serSession : Session → List Nat
  deSession : List Nat → Option Session
  serBlob : Blob → List Nat
  deBlob : List Nat → Option Blob

/-- Failure taxonomy of the store (the `anyhow` contexts in state.rs). -/
inductive StoreError where
  | badBlobJson
  | unsupportedVersion
  | hashFailed
  | badPassword
  | badSessionJson
  | encryptFailed
  | fileExists
  | unknownUser
deriving DecidableEq

/-- `decrypt_blob` from state.rs. -/
def decrypt_blob (E : CryptoEnv) (pass : String) (blob_text : List Nat) :
    Except StoreError Session :=
  match E.deBlob blob_text with
  | none => .error .badBlobJson
  | some blob =>
    if blob.version ≠ "argon2+chacha20poly1305" then .error .unsupportedVersion
    else
      match E.kdf pass blob.salt with
      | none => .error .hashFailed
      | some key =>
        match E.aeadDecrypt key blob.nonce blob.ciphertext with
        | none => .error .badPassword
        | some plaintext =>
          match E.deSession plaintext with
          | none => .error .badSessionJson
          | some session => .ok session

/-- `encrypt_blob` from state.rs, with the `OsRng` salt and nonce passed
in explicitly. -/
def encrypt_blob (E : CryptoEnv) (pass homeserver : String)
    (auth : AuthSessionData) (salt nonce : List Nat) :
    Except StoreError (List Nat) :=
  let session := sessionOfAuth homeserver auth
  match E.kdf pass salt with
  | none => .error .hashFailed
  | some key =>
    match E.aeadEncrypt key nonce (E.serSession session) with
    | none => .error .encryptFailed
    | some ciphertext =>
      .ok (E.serBlob { version := "argon2+chacha20poly1305",
                       ciphertext := ciphertext, salt := salt, nonce := nonce })

/-- The per-user session files under `<state_dir>`: nick ↦ file bytes. -/
def FsState : Type := String → Option (List Nat)

/-- The empty state directory. -/
def fsEmpty : FsState := fun _ => none

/-- Writing `<state_dir>/<nick>/session`. -/
def fsWrite (fs : FsState) (nick : String) (content : List Nat) : FsState :=
  fun n => if n = nick then some content else fs n

/-- `create_user` from state.rs: encrypt, then create the session file,
refusing to overwrite (`create_new(true)`). -/
def create_user (E : CryptoEnv) (fs : FsState) (nick pass homeserver : String)
    (auth : AuthSessionData) (salt nonce : List Nat) :
    Except StoreError FsState :=
  match encrypt_blob E pass homeserver auth salt nonce with
  | .error e => .error e
  | .ok blob_text =>
    match fs nick with
    | some _ => .error .fileExists
    | none => .ok (fsWrite fs nick blob_text)

/-- `login` from state.rs: decrypt the stored session if the file exists,
otherwise admit the user only when registration is enabled. -/
def login (E : CryptoEnv) (allowRegister : Bool) (fs : FsState)
    (nick pass : String) : Except StoreError (Option Session) :=
  match fs nick with
  | some blob_text =>
    match decrypt_blob E pass blob_text with
    | .error e => .error e
    | .ok session => .ok (some session)
  | none => if allowRegister then .ok none else .error .unknownUser

/-! ## Room targets and the mapping engine (room_mappings.rs)

`RoomTarget`'s shared `Arc<RwLock<RoomTargetInner>>` becomes a plain
value; the operations below are the lock-protected bodies of the source
functions.  -/

/-- `IrcMessageType` from ircd/proto.rs. -/
inductive IrcMessageType where
  | Privmsg
  | Notice
deriving DecidableEq

/-- `TargetMessage` from room_mappings.rs (`from` is a Lean keyword, so
the field is `from_`). -/
structure TargetMessage where
  message_type : IrcMessageType
  from_ : String
  text : String
deriving DecidableEq

/-- `RoomTargetType` from room_mappings.rs. -/
inductive RoomTargetType where
  | Query
  | Chan
  | LeftChan
  | JoiningChan
deriving DecidableEq

/-- `RoomTargetInner` from room_mappings.rs; the inner
`RwLock<VecDeque<TargetMessage>>` is a list. -/
structure RoomTargetInner where
  target : String
  target_type : RoomTargetType
  members : SMap String
  names : SMap String
  pending_messages : List TargetMessage
deriving DecidableEq

/-- `RoomTarget::query` from room_mappings.rs (fresh maps, empty queue). -/
def RoomTargetInner.query (target : String) : RoomTargetInner :=
  { target := target
    target_type := .Query
    members := ∅
    names := ∅
    pending_messages := [] }

/-- What the embedding uses of a matrix-sdk `RoomMember`: its user id and
its `name()`. -/
structure MemberInfo where
  user_id : String
  name : String
deriving DecidableEq

/-- The loop body of `fill_room_members`: compute the member's nick
(preserving the room target's own name), dedup it into `names`, record it
in `members`. -/
def fillStep (room_name : String) (acc : RoomTargetInner) (m : MemberInfo) :
    RoomTargetInner :=
  let member_name := if m.name = room_name then acc.target else sanitize m.name
  let r := insertDeduped acc.names member_name m.user_id
  { acc with names := r.2, members := acc.members.insert m.user_id r.1 }

/-- `fill_room_members` from room_mappings.rs.  The
`room.members(RoomMemberships::ACTIVE)` SDK call is abstracted as
`membersRes` (`none` = enumeration failure).  -/
def fill_room_members (inner : RoomTargetInner)
    (membersRes : Option (List MemberInfo)) (room_name : String) :
    Except String RoomTargetInner :=
  match membersRes with
  | none => .error "could not get members"
  | some members =>
    if members.length = 0 then
      .error ("Message in empty room " ++ room_name ++ "?")
    else
      let inner1 :=
        if members.length ≤ 2 then
          if members.all (fun m => m.name ≠ room_name) then
            { inner with target_type := .LeftChan }
          else inner
        else { inner with target_type := .LeftChan }
      .ok (members.foldl (fillStep room_name) inner1)

/-- The map updates of `RoomTarget::member_join` from room_mappings.rs
(the IRC `JOIN` emission is modelled with the event handlers). -/
def member_join (inner : RoomTargetInner) (member : String)
    (name : Option String) : RoomTargetInner :=
  let n := sanitize (name.getD member)
  let r := insertDeduped inner.names n member
  { inner with names := r.2, members := inner.members.insert member r.1 }

/-- The map updates of `RoomTarget::member_part` from room_mappings.rs. -/
def member_part (inner : RoomTargetInner) (member : String) :
    RoomTargetInner :=
  match inner.members.lookup member with
  | none => inner
  | some name =>
    { inner with
      members := inner.members.erase member
      names := inner.names.erase name }

/-- `RoomTarget::set_error` from room_mappings.rs: queue a matrirc notice
on the target's pending queue. -/
def set_error (inner : RoomTargetInner) (error : String) : RoomTargetInner :=
  { inner with
    pending_messages :=
      inner.pending_messages ++ [⟨.Notice, "matrirc", error⟩] }

/-- `MappingsInner` from room_mappings.rs.  `rooms` holds the room's
target state; `targets` holds the boxed message handlers, whose behaviour
no checked claim depends on, hence `Unit` values. -/
structure MappingsInner where
  rooms : SMap RoomTargetInner
  targets : SMap Unit
deriving DecidableEq

/-- What the embedding uses of a matrix-sdk `Room` in `try_room_target`:
its id, its `room_name(room)` result, and its member enumeration. -/
structure RoomCtx where
  room_id : String
  display_name : String
  membersRes : Option (List MemberInfo)

/-- `Mappings::try_room_target` from room_mappings.rs.  Rust mutates the
maps in place, so the function returns the result together with the final
map state: the happy path leaves the state alone, the create path inserts
into `targets` and `rooms` and then fills members — with no rollback when
the fill fails. -/
def try_room_target (st : MappingsInner) (room : RoomCtx) :
    Except String RoomTargetInner × MappingsInner :=
  match st.rooms.lookup room.room_id with
  | some target => (.ok target, st)
  | none =>
    let desired_name := sanitize room.display_name
    let r := insertDeduped st.targets desired_name ()
    let target := RoomTargetInner.query r.1
    let st' : MappingsInner :=
      { rooms := st.rooms.insert room.room_id target, targets := r.2 }
    match fill_room_members target room.membersRes desired_name with
    | .error e => (.error e, st')
    | .ok filled =>
      (.ok filled, { st' with rooms := st.rooms.insert room.room_id filled })

/-- `Mappings::room_target` from room_mappings.rs: on failure the error
is pushed as a notice onto the `matrirc` target (`mt`), which is returned
in place of a room target.  Result: (returned target, mappings state,
matrirc target state). -/
def room_target (st : MappingsInner) (mt : RoomTargetInner) (room : RoomCtx) :
    RoomTargetInner × MappingsInner × RoomTargetInner :=
  match try_room_target st room with
  | (.ok target, st') => (target, st', mt)
  | (.error e, st') =>
    let mt' := set_error mt ("Could not find or create target: " ++ e)
    (mt', st', mt')

/-! ### Operation sequences on a target's member/nick tables (for the
bijection invariant) -/

/-- One member-table operation on a `RoomTargetInner`. -/
inductive MemberOp where
  | fill (membersRes : Option (List MemberInfo)) (room_name : String)
  | join (member : String) (name : Option String)
  | part (member : String)

/-- Apply one operation; a failing `fill` leaves the state unchanged
(the source errors out before any mutation). -/
def applyMemberOp (inner : RoomTargetInner) : MemberOp → RoomTargetInner
  | .fill res rn =>
    match fill_room_members inner res rn with
    | .ok filled => filled
    | .error _ => inner
  | .join m n => member_join inner m n
  | .part m => member_part inner m

/-- Apply a sequence of member-table operations. -/
def applyMemberOps (inner : RoomTargetInner) (ops : List MemberOp) :
    RoomTargetInner :=
  ops.foldl applyMemberOp inner

/-- The member/nick bijection of spec invariant I1:
`members[uid] = nick` iff `names[nick] = uid`. -/
def MemberNickBij (members names : SMap String) : Prop :=
  ∀ uid nick, members.lookup uid = some nick ↔ names.lookup nick = some uid

/-- Whether an operation respects the precondition under which the
bijection is preserved: joins and fills only introduce user ids that are
not yet members (fills additionally enumerate distinct user ids). -/
def MemberOpOk (inner : RoomTargetInner) : MemberOp → Prop
  | .fill res _ =>
    match res with
    | none => True
    | some ms =>
      (ms.map (fun m => m.user_id)).Nodup ∧
        ∀ mi ∈ ms, inner.members.lookup mi.user_id = none
  | .join m _ => inner.members.lookup m = none
  | .part _ => True

/-- Chained well-formedness of an operation sequence. -/
def MemberOpsOk : RoomTargetInner → List MemberOp → Prop
  | _, [] => True
  | inner, op :: ops =>
    MemberOpOk inner op ∧ MemberOpsOk (applyMemberOp inner op) ops

/-! ## Timestamp rendering (time.rs, sync_room_message.rs)

Timestamps are embedded in milliseconds (`MilliSecondsSinceUnixEpoch`),
as signed integers so the comparisons match chrono's `DateTime` order;
the chrono format calls are abstracted to the shape of the output.  -/

/-- The two date formats the code renders. -/
inductive TimeFormat where
  | timeOnly
  | fullDate
deriving DecidableEq

/-- `ToLocal::localtime` from time.rs, abstracted to the format chosen:
full date if more than 12 h old, time-of-day if more than 10 s old, no
prefix if within (−10 s, +10 s], full date for the further future. -/
def localtime (tsMs nowMs : Int) : Option TimeFormat :=
  if tsMs < nowMs - 43200000 then some .fullDate
  else if tsMs < nowMs - 10000 then some .timeOnly
  else if tsMs < nowMs + 10000 then none
  else some .fullDate

/-- The timestamp rule as the spec states it (for comparison with the
code): full date when more than 12 h older or at least 10 s in the
future, bracketed time-of-day when more than 10 s but at most 12 h older,
nothing within the tolerance. -/
def specTimeRule (tsMs nowMs : Int) : Option TimeFormat :=
  if nowMs - tsMs > 43200000 ∨ tsMs - nowMs ≥ 10000 then some .fullDate
  else if nowMs - tsMs > 10000 then some .timeOnly
  else none

/-- The `time_prefix` computation of `on_room_message`
(sync_room_message.rs): it works in whole seconds with saturating
subtraction and only ever renders the full `<%Y-%m-%d %H:%M:%S> ` form. -/
def roomMsgTimePfx (nowSecs tsSecs : Nat) : Option TimeFormat :=
  if nowSecs - 10 > tsSecs then some .fullDate else none

/-! ## Event handlers (sync_room_message.rs, sync_reaction.rs,
sync_room_member.rs)

Each handler is modelled as the list of side-effecting calls it performs
— sending a line to the target (`send_text_to_irc`), storing into the
recent-message cache (`message_put`), updating the member tables — as a
function of the event and of the results of the external SDK calls
(media URL resolution, event fetch, emoji lookup), which are passed in.  -/

/-- A side-effecting call an event handler performs, in order. -/
inductive HandlerAction where
  | sendText (t : IrcMessageType) (sender : String) (text : String)
  | cachePut (event_id : String) (text : String)
  | memberJoin (member : String) (name : Option String)
  | memberPart (member : String)
deriving DecidableEq

/-- The message-content cases `on_room_message` distinguishes; for media
the resolved URL (or inlined error string) of `SourceUri::to_uri` is an
argument. -/
inductive MatrixMessageContent where
  | text (body : String)
  | emote (body : String)
  | notice (body : String)
  | serverNotice (body : String)
  | file (body : String) (url : String)
  | image (body : String) (url : String)
  | video (body : String) (url : String)
  | verificationRequest
  | other (msgtype : String) (hasData : Bool) (body : String)
deriving DecidableEq

/-- An `OriginalSyncRoomMessageEvent` as the handler consumes it. -/
structure RoomMessageEvent where
  transaction_id : Option String
  sender : String
  origin_server_ts_secs : Nat
  event_id : String
  content : MatrixMessageContent
deriving DecidableEq

/-- `on_room_message` from sync_room_message.rs.  `fmtFull ts` stands for
chrono's `format("<%Y-%m-%d %H:%M:%S> ")` of the event time. -/
def on_room_message (fmtFull : Nat → String) (nowSecs : Nat)
    (roomJoined : Bool) (ev : RoomMessageEvent) : List HandlerAction :=
  if ev.transaction_id.isSome then []
  else if !roomJoined then []
  else
    let time_pfx :=
      if nowSecs - 10 > ev.origin_server_ts_secs then
        fmtFull ev.origin_server_ts_secs
      else ""
    match ev.content with
    | .text body => [.sendText .Privmsg ev.sender (time_pfx ++ body)]
    | .emote body =>
      [.sendText .Privmsg ev.sender ("\x01ACTION " ++ time_pfx ++ body)]
    | .notice body => [.sendText .Notice ev.sender (time_pfx ++ body)]
    | .serverNotice body => [.sendText .Notice ev.sender (time_pfx ++ body)]
    | .file body url =>
      [.sendText .Notice ev.sender
        (time_pfx ++ "Sent a file, " ++ body ++ ": " ++ url)]
    | .image body url =>
      [.sendText .Notice ev.sender
        (time_pfx ++ "Sent a image, " ++ body ++ ": " ++ url)]
    | .video body url =>
      [.sendText .Notice ev.sender
        (time_pfx ++ "Sent a video, " ++ body ++ ": " ++ url)]
    | .verificationRequest => []
    | .other msgtype hasData body =>
      [.sendText .Privmsg ev.sender
        (time_pfx ++ "Sent " ++ msgtype ++
          (if hasData then " (has data)" else "") ++ ": " ++ body)]

/-- `get_message_from_event_id` from sync_reaction.rs: recent-message
cache first, then the upstream event fetch (whose rendered result or
error is the `fetched` argument). -/
def get_message_from_event_id (cache : Option String)
    (fetched : Except String String) : Except String String :=
  match cache with
  | some m => .ok m
  | none => fetched

/-- Render `localtime` output as the reaction/redaction time prefix
(`format("<{}> ")`), with the two chrono formats abstracted. -/
def localtimePfx (fmtTime fmtDate : Int → String) (tsMs nowMs : Int) :
    String :=
  match localtime tsMs nowMs with
  | some .timeOnly => "<" ++ fmtTime tsMs ++ "> "
  | some .fullDate => "<" ++ fmtDate tsMs ++ "> "
  | none => ""

/-- An `OriginalSyncReactionEvent` as the handler consumes it. -/
structure ReactionEvent where
  transaction_id : Option String
  sender : String
  origin_server_ts_ms : Int
  event_id : String
  key : String
deriving DecidableEq

/-- The rendered reaction line of `on_sync_reaction`:
`{time_prefix}<Reacted to {reacting_to}>: {reaction_text}`. -/
def reactionMessage (fmtTime fmtDate : Int → String) (nowMs : Int)
    (ev : ReactionEvent) (emojiName : Option String)
    (cache : Option String) (fetched : Except String String) : String :=
  let time_pfx := localtimePfx fmtTime fmtDate ev.origin_server_ts_ms nowMs
  let reaction_text :=
    match emojiName with
    | some n => ev.key ++ " (" ++ n ++ ")"
    | none => ev.key
  let reacting_to :=
    match get_message_from_event_id cache fetched with
    | .error e => "<Could not retreive: " ++ e ++ ">"
    | .ok m => m
  time_pfx ++ "<Reacted to " ++ reacting_to ++ ">: " ++ reaction_text

/-- `on_sync_reaction` from sync_reaction.rs: `emojiName` is the
`emoji::lookup_by_glyph` result, `cache`/`fetched` feed
`get_message_from_event_id`. -/
def on_sync_reaction (fmtTime fmtDate : Int → String) (nowMs : Int)
    (roomJoined : Bool) (ev : ReactionEvent) (emojiName : Option String)
    (cache : Option String) (fetched : Except String String) :
    List HandlerAction :=
  if ev.transaction_id.isSome then []
  else if !roomJoined then []
  else
    let message := reactionMessage fmtTime fmtDate nowMs ev emojiName cache fetched
    [.cachePut ev.event_id message,
     .sendText .Privmsg ev.sender message]

/-- An `OriginalSyncRoomRedactionEvent` as the handler consumes it. -/
structure RedactionEvent where
  transaction_id : Option String
  sender : String
  origin_server_ts_ms : Int
  redacts : Option String
  reason : Option String
deriving DecidableEq

/-- `on_sync_room_redaction` from sync_reaction.rs. -/
def on_sync_room_redaction (fmtTime fmtDate : Int → String) (nowMs : Int)
    (roomJoined : Bool) (ev : RedactionEvent)
    (cache : Option String) (fetched : Except String String) :
    List HandlerAction :=
  if ev.transaction_id.isSome then []
  else if !roomJoined then []
  else
    let time_pfx := localtimePfx fmtTime fmtDate ev.origin_server_ts_ms nowMs
    let reason := ev.reason.getD "(no reason)"
    let reacting_to :=
      match ev.redacts with
      | none => "<Could not retreive: no redacted event id>"
      | some _ =>
        match get_message_from_event_id cache fetched with
        | .error e => "<Could not retreive: " ++ e ++ ">"
        | .ok m => m
    [.sendText .Privmsg ev.sender
      (time_pfx ++ "<Redacted " ++ reacting_to ++ ">: " ++ reason)]

/-- The membership changes `on_room_member` distinguishes. -/
inductive MembershipChange where
  | invited
  | joined
  | invitationAccepted
  | left
  | other
deriving DecidableEq

/-- An `OriginalSyncRoomMemberEvent` as the handler consumes it. -/
structure RoomMemberEvent where
  transaction_id : Option String
  sender : String
  displayname : Option String
  change : MembershipChange
deriving DecidableEq

/-- `on_room_member` from sync_room_member.rs. -/
def on_room_member (roomJoined : Bool) (ev : RoomMemberEvent) :
    List HandlerAction :=
  if ev.transaction_id.isSome then []
  else if !roomJoined then []
  else
    match ev.change with
    | .invited =>
      [.sendText .Notice ev.sender
        ("<invited " ++ ev.displayname.getD "???" ++ ">")]
    | .joined => [.memberJoin ev.sender ev.displayname]
    | .invitationAccepted => [.memberJoin ev.sender ev.displayname]
    | .left => [.memberPart ev.sender]
    | .other => []

/-! ## The outbound queue writer (ircd/proto.rs) -/

/-- An IRC frame as the writer distinguishes them: an `ERROR` command or
anything else. -/
inductive IrcFrame where
  | errorFrame (reason : String)
  | frame (text : String)
deriving DecidableEq

/-- Whether a frame is an `ERROR` frame. -/
def isErrorFrame : IrcFrame → Bool
  | .errorFrame _ => true
  | .frame _ => false

/-- `ircd_sync_write` from ircd/proto.rs as a function from the sequence
of frames the queue delivers to the sequence written to the socket: each
frame is forwarded in order; an `ERROR` frame is written and then the
writer closes and returns; exhausting the queue (sender closed) returns. -/
def ircd_sync_write : List IrcFrame → List IrcFrame
  | [] => []
  | f :: rest =>
    match f with
    | .errorFrame r => [.errorFrame r]
    | .frame t => .frame t :: ircd_sync_write rest

/-! ## The running flag (matrirc.rs) -/

/-- `Running` from matrirc.rs. -/
inductive Running where
  | First
  | Continue
  | Break
deriving DecidableEq

/-- The flag transition of `Matrirc::running`: the first observation of
`First` flips the flag to `Continue`; other states are left alone. -/
def runningNext : Running → Running
  | .First => .Continue
  | r => r

/-- One session-coordinator call: `running()` or `stop(reason)`. -/
inductive SessionOp where
  | running
  | stop (reason : String)

/-- Whether an operation is a `stop`. -/
def isStopOp : SessionOp → Bool
  | .running => false
  | .stop _ => true

/-- The coordinator state: the flag plus the outbound queue it sends the
`ERROR` frame into. -/
structure SessionState where
  flag : Running
  queue : List IrcFrame

/-- Apply a coordinator call: `running()` returns the observed flag and
advances `First ↦ Continue`; `stop` sets `Break` and enqueues an `ERROR`
frame. -/
def applySessionOp (st : SessionState) : SessionOp → SessionState × Option Running
  | .running => ({ st with flag := runningNext st.flag }, some st.flag)
  | .stop reason =>
    ({ flag := .Break, queue := st.queue ++ [.errorFrame reason] }, none)

/-- Run a sequence of coordinator calls, collecting the `running()`
results in order. -/
def runSession : SessionState → List SessionOp → SessionState × List Running
  | st, [] => (st, [])
  | st, op :: ops =>
    let r := applySessionOp st op
    let rest := runSession r.1 ops
    (rest.1, r.2.toList ++ rest.2)

/-- The `running()` results of a stop-free session that starts fresh:
`First` once, then `Continue`. -/
def firstThenContinue : Nat → List Running
  | 0 => []
  | n + 1 => .First :: List.replicate n .Continue

/-- Length-prefixed encoding of a string into bytes. -/
def encStr (s : String) : List Nat := s.data.length :: s.data.map Char.toNat

/-- Decode a length-prefixed string, returning the remaining bytes. -/
def decStr : List Nat → Option (String × List Nat)
  | [] => none
  | n :: rest =>
    if n ≤ rest.length then
      some (⟨(rest.take n).map Char.ofNat⟩, rest.drop n)
    else none

/-- Length-prefixed encoding of a byte string. -/
def encList (l : List Nat) : List Nat := l.length :: l

/-- Decode a length-prefixed byte string, returning the rest. -/
def decList : List Nat → Option (List Nat × List Nat)
  | [] => none
  | n :: rest =>
    if n ≤ rest.length then some (rest.take n, rest.drop n) else none

/-- Tagged encoding of an optional string. -/
def encOptStr : Option String → List Nat
  | none => [0]
  | some s => 1 :: encStr s

/-- Decode an optional string, returning the rest. -/
def decOptStr : List Nat → Option (Option String × List Nat)
  | 0 :: rest => some (none, rest)
  | 1 :: rest =>
    match decStr rest with
    | some (s, r) => some (some s, r)
    | none => none
  | _ => none

/-- Toy serializer for `Session` (stands in for serde_json). -/
def toySerSession (s : Session) : List Nat :=
  encStr s.homeserver ++ (encStr s.matrix_session.access_token ++
    (encOptStr s.matrix_session.refresh_token ++
      (encStr s.matrix_session.user_id ++ encStr s.matrix_session.device_id)))

/-- Toy deserializer for `Session`. -/
def toyDeSession (l : List Nat) : Option Session :=
  match decStr l with
  | none => none
  | some (hs, r1) =>
    match decStr r1 with
    | none => none
    | some (tok, r2) =>
      match decOptStr r2 with
      | none => none
      | some (rtok, r3) =>
        match decStr r3 with
        | none => none
        | some (uid, r4) =>
          match decStr r4 with
          | none => none
          | some (dev, _) => some ⟨hs, ⟨tok, rtok, uid, dev⟩⟩

/-- Toy serializer for `Blob` (stands in for serde_json + base64). -/
def toySerBlob (b : Blob) : List Nat :=
  encStr b.version ++ (encList b.ciphertext ++ (encList b.salt ++ encList b.nonce))

/-- Toy deserializer for `Blob`. -/
def toyDeBlob (l : List Nat) : Option Blob :=
  match decStr l with
  | none => none
  | some (v, r1) =>
    match decList r1 with
    | none => none
    | some (ct, r2) =>
      match decList r2 with
      | none => none
      | some (salt, r3) =>
        match decList r3 with
        | none => none
        | some (nonce, _) => some ⟨v, ct, salt, nonce⟩

/-- Toy key derivation (stands in for Argon2): password bytes plus salt. -/
def toyKdf (pass : String) (salt : List Nat) : Option (List Nat) :=
  some (encStr pass ++ salt)

/-- Toy AEAD encryption: tag the plaintext with key and nonce. -/
def toyAeadEncrypt (k n p : List Nat) : Option (List Nat) :=
  some (k.length :: (k ++ (n ++ p)))

/-- Toy AEAD decryption: check key length, key and nonce tags. -/
def toyAeadDecrypt (k n c : List Nat) : Option (List Nat) :=
  match c with
  | [] => none
  | len :: rest =>
    if len = k.length ∧ rest.take k.length = k ∧
        (rest.drop k.length).take n.length = n then
      some ((rest.drop k.length).drop n.length)
    else none

/-- The lawful toy environment. -/
def toyEnv : CryptoEnv :=
  { kdf := toyKdf
    aeadEncrypt := toyAeadEncrypt
    aeadDecrypt := toyAeadDecrypt
    serSession := toySerSession
    deSession := toyDeSession
    serBlob := toySerBlob
    deBlob := toyDeBlob }

/-- A sample upstream auth session. -/
def sampleAuth : AuthSessionData :=
  { access_token := "tok", refresh_token := none,
    user_id := "@alice:hs", device_id := "DEV" }

/-- The blob bytes `create_user` writes for the sample input. -/
def sampleBlobText : List Nat :=
  match encrypt_blob toyEnv "hunter2" "hs.example" sampleAuth [1, 2] [3] with
  | .ok bt => bt
  | .error _ => []

/-- The state directory after the sample `create_user`. -/
def sampleFs : FsState := fsWrite fsEmpty "alice" sampleBlobText

/-- The empty mapping-engine state. -/
def demoMappings : MappingsInner := { rooms := ∅, targets := ∅ }

/-- A room whose member enumeration fails. -/
def demoRoomCtx : RoomCtx :=
  { room_id := "!r:hs", display_name := "Team Chat", membersRes := none }

end Matrirc

namespace Matrirc

theorem decimalDigitsAux_undigits (fuel : Nat) :
    ∀ n, n ≤ fuel → undigits (decimalDigitsAux fuel n) = n := by
  induction fuel with
  | zero => intro n hn; interval_cases n; simp [decimalDigitsAux, undigits]
  | succ fuel ih =>
    intro n hn
    by_cases h0 : n = 0
    · simp [decimalDigitsAux, undigits, h0]
    · have hdiv : n / 10 ≤ fuel := by
        have : n / 10 < n := Nat.div_lt_self (Nat.pos_of_ne_zero h0) (by norm_num)
        omega
      simp only [decimalDigitsAux, h0, if_false, undigits, List.foldr]
      have := ih (n / 10) hdiv
      simp only [undigits] at this
      rw [this]
      omega

theorem undigits_decimalDigits (n : Nat) : undigits (decimalDigits n) = n :=
  decimalDigitsAux_undigits n n le_rfl

theorem decimalDigits_injective : Function.Injective decimalDigits := by
  intro a b h
  have ha := undigits_decimalDigits a
  have hb := undigits_decimalDigits b
  rw [← ha, ← hb, h]

theorem decimalDigitsAux_lt_ten (fuel : Nat) :
    ∀ n d, d ∈ decimalDigitsAux fuel n → d < 10 := by
  induction fuel with
  | zero => intro n d hd; simp [decimalDigitsAux] at hd
  | succ fuel ih =>
    intro n d hd
    by_cases h0 : n = 0
    · simp [decimalDigitsAux, h0] at hd
    · simp only [decimalDigitsAux, h0, if_false, List.mem_cons] at hd
      rcases hd with h | h
      · subst h; exact Nat.mod_lt _ (by norm_num)
      · exact ih _ _ h

theorem digitChar_injOn {d e : Nat} (hd : d < 10) (he : e < 10)
    (h : digitChar d = digitChar e) : d = e := by
  interval_cases d <;> interval_cases e <;> simp_all [digitChar]

theorem charVal_digitChar {d : Nat} (hd : d < 10) : charVal (digitChar d) = d := by
  interval_cases d <;> rfl

theorem foldr_charVal_map (l : List Nat) (h : ∀ d ∈ l, d < 10) :
    (l.map digitChar).foldr (fun c acc => charVal c + 10 * acc) 0 = undigits l := by
  induction l with
  | nil => rfl
  | cons d tl ih =>
    simp only [List.map_cons, List.foldr, undigits, List.foldr_cons]
    rw [charVal_digitChar (h d (by simp))]
    have := ih (fun e he => h e (by simp [he]))
    simp only [undigits] at this
    rw [this]

theorem charsVal_decimalChars (n : Nat) : charsVal (decimalChars n) = n := by
  by_cases h0 : n = 0
  · subst h0; rfl
  · unfold decimalChars charsVal
    simp only [h0, if_false]
    rw [← List.map_reverse, List.reverse_reverse]
    rw [foldr_charVal_map (decimalDigits n) (fun d hd => decimalDigitsAux_lt_ten n n d hd)]
    exact undigits_decimalDigits n

theorem decimalChars_injective : Function.Injective decimalChars := by
  intro a b h
  have ha := charsVal_decimalChars a
  have hb := charsVal_decimalChars b
  rw [← ha, ← hb, h]

theorem dedupKey_inj {orig : String} {i j : Nat} (hi : 1 ≤ i) (hj : 1 ≤ j)
    (h : dedupKey orig i = dedupKey orig j) : i = j := by
  unfold dedupKey at h
  by_cases hi1 : i = 1 <;> by_cases hj1 : j = 1
  · omega
  · exfalso
    simp only [hi1, if_true, hj1, if_false] at h
    have := congrArg (fun s => s.data.length) h
    simp at this
  · exfalso
    simp only [hi1, if_false, hj1, if_true] at h
    have := congrArg (fun s => s.data.length) h
    simp at this
  · simp only [hi1, if_false, hj1, if_false] at h
    have hdata := congrArg String.data h
    simp only at hdata
    have := List.append_cancel_left hdata
    exact decimalChars_injective (by injection this)

theorem insertDedupedGo_eq {V : Type} {orig : String} {v : V} {m : SMap V}
    (fuel : Nat) :
    ∀ count j, count ≤ j → j < count + fuel →
      dedupKey orig j ∉ m →
      (∀ i, count ≤ i → i < j → dedupKey orig i ∈ m) →
      insertDedupedGo orig v count fuel m =
        (dedupKey orig j, m.insert (dedupKey orig j) v) := by
  induction fuel with
  | zero => intro count j h1 h2 _ _; omega
  | succ fuel ih =>
    intro count j h1 h2 hfree hbusy
    by_cases hmem : dedupKey orig count ∈ m
    · have hne : count ≠ j := fun he => hfree (he ▸ hmem)
      simp only [insertDedupedGo, hmem, if_true]
      exact ih (count + 1) j (by omega) (by omega) hfree
        (fun i hi1 hi2 => hbusy i (by omega) hi2)
    · have hej : count = j := by
        by_contra hne
        exact hmem (hbusy count le_rfl (by omega))
      subst hej
      simp only [insertDedupedGo, hmem, if_false]

/-- If the first `n` candidate keys are all present, the map holds at
least `n` entries (pigeonhole for the dedup loop). -/
theorem dedup_family_le_length {V : Type} (m : SMap V) (c : String) (n : Nat)
    (h : ∀ i, i < n → dedupKey c (i + 1) ∈ m) : n ≤ m.entries.length := by
  have hnodup : ((List.range n).map (fun i => dedupKey c (i + 1))).Nodup := by
    apply List.Nodup.map_on _ (List.nodup_range n)
    intro x _ y _ hxy
    have := dedupKey_inj (i := x + 1) (by omega) (by omega) hxy
    omega
  have hsub : ((List.range n).map (fun i => dedupKey c (i + 1))) ⊆ m.keys := by
    intro k hk
    simp only [List.mem_map, List.mem_range] at hk
    obtain ⟨i, hi, rfl⟩ := hk
    exact AList.mem_keys.mp (h i hi)
  have hle := (hnodup.subperm hsub).length_le
  simpa [AList.keys, List.keys] using hle

/-- A least vacant candidate number exists, is at most `size + 1`, and
`insertDeduped` lands exactly on it. -/
theorem insertDeduped_eq {V : Type} (m : SMap V) (c : String) (v : V) :
    ∃ j, 1 ≤ j ∧ j ≤ m.entries.length + 1 ∧
      dedupKey c j ∉ m ∧ (∀ i, 1 ≤ i → i < j → dedupKey c i ∈ m) ∧
      insertDeduped m c v = (dedupKey c j, m.insert (dedupKey c j) v) := by
  have hex : ∃ i, i < m.entries.length + 1 ∧ dedupKey c (i + 1) ∉ m := by
    by_contra hall
    push_neg at hall
    have := dedup_family_le_length m c (m.entries.length + 1)
      (fun i hi => hall i hi)
    omega
  classical
  obtain ⟨i0, hi0, hfree0⟩ := hex
  -- take the least free candidate number
  let p : Nat → Prop := fun j => 1 ≤ j ∧ dedupKey c j ∉ m
  have hp : ∃ j, p j := ⟨i0 + 1, by omega, hfree0⟩
  let j := Nat.find hp
  have hj : p j := Nat.find_spec hp
  have hjle : j ≤ i0 + 1 := Nat.find_min' hp ⟨by omega, hfree0⟩
  have hbusy : ∀ i, 1 ≤ i → i < j → dedupKey c i ∈ m := by
    intro i hi1 hij
    have := Nat.find_min hp hij
    simp only [p, not_and] at this
    by_contra hnm
    exact (this hi1) hnm
  refine ⟨j, hj.1, by omega, hj.2, hbusy, ?_⟩
  exact insertDedupedGo_eq (m.entries.length + 1) 1 j hj.1 (by omega) hj.2
    (fun i hi1 hi2 => hbusy i hi1 hi2)

/-- Convenience corollary: the key `insertDeduped` returns was vacant, and
the map is extended exactly at that key. -/
theorem insertDeduped_fresh {V : Type} (m : SMap V) (c : String) (v : V) :
    (insertDeduped m c v).1 ∉ m ∧
      (insertDeduped m c v).2 = m.insert (insertDeduped m c v).1 v := by
  obtain ⟨j, _, _, hfree, _, heq⟩ := insertDeduped_eq m c v
  rw [heq]
  exact ⟨hfree, rfl⟩

theorem repeatInsertDeduped_from {V : Type} (c : String) (v : V) (n : Nat) :
    ∀ (t : Nat) (m : SMap V), 1 ≤ t →
      (∀ k, 1 ≤ k → (dedupKey c k ∈ m ↔ k < t)) →
      (repeatInsertDeduped c v n m).1 =
        (List.range n).map (fun i => dedupKey c (t + i)) := by
  induction n with
  | zero => intro t m _ _; simp [repeatInsertDeduped]
  | succ n ih =>
    intro t m ht hmem
    -- the least vacant candidate is exactly `t`
    obtain ⟨j, hj1, _, hjfree, hjbusy, heq⟩ := insertDeduped_eq m c v
    have hjt : j = t := by
      by_contra hne
      rcases Nat.lt_or_ge j t with hlt | hge
      · exact hjfree ((hmem j hj1).mpr hlt)
      · have htj : t < j := by omega
        have := (hmem t ht).mp (hjbusy t ht htj)
        omega
    rw [hjt] at heq
    simp only [repeatInsertDeduped, heq]
    have hmem' : ∀ k, 1 ≤ k → (dedupKey c k ∈ m.insert (dedupKey c t) v ↔ k < t + 1) := by
      intro k hk
      rw [AList.mem_insert]
      constructor
      · rintro (hkey | hmemk)
        · have := dedupKey_inj hk ht hkey
          omega
        · have := (hmem k hk).mp hmemk
          omega
      · intro hklt
        by_cases hkt : k = t
        · left; rw [hkt]
        · right; exact (hmem k hk).mpr (by omega)
    rw [ih (t + 1) _ (by omega) hmem']
    rw [List.range_succ_eq_map]
    simp only [List.map_cons, Nat.add_zero, List.map_map]
    congr 1
    apply List.map_congr_left
    intro i _
    simp only [Function.comp_apply]
    congr 1
    omega

theorem memberNickBij_insert {m n : SMap String} (hbij : MemberNickBij m n)
    (uid cand : String) (hfresh : m.lookup uid = none) :
    MemberNickBij (m.insert uid (insertDeduped n cand uid).1)
      (insertDeduped n cand uid).2 := by
  obtain ⟨hvac, hmap⟩ := insertDeduped_fresh n cand uid
  rw [hmap]
  set nick := (insertDeduped n cand uid).1 with hnick
  intro u k
  by_cases hu : u = uid
  · subst hu
    rw [AList.lookup_insert]
    by_cases hk : k = nick
    · subst hk
      rw [AList.lookup_insert]
      simp
    · rw [AList.lookup_insert_ne hk]
      constructor
      · intro h
        exact absurd (Option.some_injective _ h) (Ne.symm hk)
      · intro h
        rw [← hbij u k] at h
        rw [hfresh] at h
        cases h
  · rw [AList.lookup_insert_ne hu]
    by_cases hk : k = nick
    · subst hk
      rw [AList.lookup_insert]
      constructor
      · intro h
        rw [hbij u nick] at h
        rw [AList.lookup_eq_none.mpr hvac] at h
        cases h
      · intro h
        exact absurd (Option.some_injective _ h).symm hu
    · rw [AList.lookup_insert_ne hk]
      exact hbij u k

theorem memberNickBij_join {inner : RoomTargetInner}
    (hbij : MemberNickBij inner.members inner.names) (member : String)
    (name : Option String)
    (hfresh : inner.members.lookup member = none) :
    MemberNickBij (member_join inner member name).members
      (member_join inner member name).names := by
  unfold member_join
  exact memberNickBij_insert hbij member _ hfresh

theorem memberNickBij_part {inner : RoomTargetInner}
    (hbij : MemberNickBij inner.members inner.names) (member : String) :
    MemberNickBij (member_part inner member).members
      (member_part inner member).names := by
  unfold member_part
  cases hlk : inner.members.lookup member with
  | none => exact hbij
  | some name0 =>
    have hname0 : inner.names.lookup name0 = some member := (hbij _ _).mp hlk
    intro u k
    simp only []
    by_cases hu : u = member
    · subst hu
      rw [AList.lookup_erase]
      by_cases hk : k = name0
      · subst hk
        rw [AList.lookup_erase]
        simp
      · rw [AList.lookup_erase_ne hk]
        constructor
        · intro h
          cases h
        · intro h
          have := (hbij u k).mpr h
          rw [hlk] at this
          exact absurd (Option.some_injective _ this) (Ne.symm hk)
    · rw [AList.lookup_erase_ne hu]
      by_cases hk : k = name0
      · subst hk
        rw [AList.lookup_erase]
        constructor
        · intro h
          have := (hbij u k).mp h
          rw [hname0] at this
          exact absurd (Option.some_injective _ this).symm hu
        · intro h
          cases h
      · rw [AList.lookup_erase_ne hk]
        exact hbij u k

theorem memberNickBij_fillFold (room_name : String) :
    ∀ (ms : List MemberInfo) (acc : RoomTargetInner),
      MemberNickBij acc.members acc.names →
      (∀ mi ∈ ms, acc.members.lookup mi.user_id = none) →
      (ms.map (fun m => m.user_id)).Nodup →
      MemberNickBij (ms.foldl (fillStep room_name) acc).members
        (ms.foldl (fillStep room_name) acc).names := by
  intro ms
  induction ms with
  | nil => intro acc hbij _ _; exact hbij
  | cons mi ms ih =>
    intro acc hbij hfresh hnodup
    simp only [List.foldl_cons]
    apply ih
    · unfold fillStep
      exact memberNickBij_insert hbij mi.user_id _ (hfresh mi (by simp))
    · intro mj hmj
      unfold fillStep
      simp only []
      have hne : mj.user_id ≠ mi.user_id := by
        simp only [List.map_cons, List.nodup_cons] at hnodup
        intro he
        exact hnodup.1 (he ▸ List.mem_map_of_mem (fun m => m.user_id) hmj)
      rw [AList.lookup_insert_ne hne]
      exact hfresh mj (by simp [hmj])
    · simp only [List.map_cons, List.nodup_cons] at hnodup
      exact hnodup.2

theorem memberNickBij_applyOp {inner : RoomTargetInner} (op : MemberOp)
    (hbij : MemberNickBij inner.members inner.names)
    (hok : MemberOpOk inner op) :
    MemberNickBij (applyMemberOp inner op).members
      (applyMemberOp inner op).names := by
  cases op with
  | join m n => exact memberNickBij_join hbij m n hok
  | part m => exact memberNickBij_part hbij m
  | fill res rn =>
    cases res with
    | none => exact hbij
    | some ms =>
      obtain ⟨hnodup, hfresh⟩ := hok
      simp only [applyMemberOp, fill_room_members]
      by_cases hz : ms.length = 0
      · rw [if_pos hz]
        exact hbij
      · rw [if_neg hz]
        simp only []
        by_cases h2 : ms.length ≤ 2 <;> [skip; skip] <;>
          · first
            | (rw [if_pos h2]
               by_cases hall : ms.all (fun m => m.name ≠ rn) = true
               · rw [if_pos hall]
                 exact memberNickBij_fillFold rn ms _ hbij hfresh hnodup
               · rw [if_neg hall]
                 exact memberNickBij_fillFold rn ms _ hbij hfresh hnodup)
            | (rw [if_neg h2]
               exact memberNickBij_fillFold rn ms _ hbij hfresh hnodup)

theorem length_le_of_lookup_imp (m n : SMap String)
    (h : ∀ uid nick, m.lookup uid = some nick → n.lookup nick = some uid) :
    m.entries.length ≤ n.entries.length := by
  have hentry : ∀ e ∈ m.entries, m.lookup e.1 = some e.2 := by
    intro e he
    have h2 : e.2 ∈ m.lookup e.1 := by
      rw [AList.mem_lookup_iff]
      simpa [Sigma.eta] using he
    simpa [Option.mem_def] using h2
  have hnodup : (m.entries.map (fun e => e.2)).Nodup := by
    apply List.Nodup.map_on _ m.nodupKeys.nodup
    intro e1 he1 e2 he2 heq
    have l1 := h e1.1 e1.2 (hentry e1 he1)
    have l2 := h e2.1 e2.2 (hentry e2 he2)
    rw [heq, l2] at l1
    have hfst : e1.1 = e2.1 := (Option.some_injective _ l1).symm
    obtain ⟨a1, b1⟩ := e1
    obtain ⟨a2, b2⟩ := e2
    simp only at hfst heq
    subst hfst
    subst heq
    rfl
  have hsub : (m.entries.map (fun e => e.2)) ⊆ n.keys := by
    intro k hk
    simp only [List.mem_map] at hk
    obtain ⟨e, he, rfl⟩ := hk
    have := h e.1 e.2 (hentry e he)
    have hin : e.1 ∈ n.lookup e.2 := by simp [this, Option.mem_def]
    have : (n.lookup e.2).isSome := by simp [this]
    exact AList.mem_keys.mp (AList.lookup_isSome.mp this)
  have hle := (hnodup.subperm hsub).length_le
  rw [List.length_map] at hle
  simpa [AList.keys, List.keys] using hle

theorem memberNickBij_length_eq {m n : SMap String} (h : MemberNickBij m n) :
    m.entries.length = n.entries.length := by
  apply le_antisymm
  · exact length_le_of_lookup_imp m n (fun uid nick hl => (h uid nick).mp hl)
  · exact length_le_of_lookup_imp n m (fun nick uid hl => (h uid nick).mpr hl)

theorem memberNickBij_applyOps (ops : List MemberOp) :
    ∀ (inner : RoomTargetInner),
      MemberNickBij inner.members inner.names →
      MemberOpsOk inner ops →
      MemberNickBij (applyMemberOps inner ops).members
        (applyMemberOps inner ops).names := by
  induction ops with
  | nil => intro inner hbij _; exact hbij
  | cons op ops ih =>
    intro inner hbij hok
    exact ih _ (memberNickBij_applyOp op hbij hok.1) hok.2

/-! ## A concrete, lawful crypto environment

To exercise the credential-store theorems on closed inputs we build one
computable `CryptoEnv` whose components satisfy the round-trip and
authentication laws: length-prefixed serialization and an AEAD that tags
the ciphertext with its key and nonce.  (The real Argon2 and
XChaCha20-Poly1305 satisfy the same laws, the latter computationally.)  -/

theorem char_ofNat_toNat (c : Char) : Char.ofNat c.toNat = c := by
  have hv : c.toNat.isValidChar := c.valid
  unfold Char.ofNat
  rw [dif_pos hv]
  unfold Char.ofNatAux
  apply Char.ext
  simp only []
  apply UInt32.ext
  simp only [UInt32.toNat, BitVec.toNat_ofNatLt]
  rfl

theorem decStr_encStr (s : String) (rest : List Nat) :
    decStr (encStr s ++ rest) = some (s, rest) := by
  simp only [encStr, List.cons_append, decStr]
  rw [if_pos (by simp)]
  rw [List.take_left' (by simp), List.drop_left' (by simp)]
  simp [List.map_map, Function.comp_def, char_ofNat_toNat]

theorem decList_encList (l rest : List Nat) :
    decList (encList l ++ rest) = some (l, rest) := by
  simp only [encList, List.cons_append, decList]
  rw [if_pos (by simp)]
  rw [List.take_left, List.drop_left]

theorem decOptStr_encOptStr (o : Option String) (rest : List Nat) :
    decOptStr (encOptStr o ++ rest) = some (o, rest) := by
  cases o with
  | none => rfl
  | some s => simp [encOptStr, decOptStr, decStr_encStr]

theorem toyDeSession_toySerSession (s : Session) :
    toyDeSession (toySerSession s) = some s := by
  unfold toySerSession toyDeSession
  rw [show encStr s.matrix_session.device_id =
      encStr s.matrix_session.device_id ++ [] from (List.append_nil _).symm]
  simp only [decStr_encStr, decOptStr_encOptStr]

theorem toyDeBlob_toySerBlob (b : Blob) : toyDeBlob (toySerBlob b) = some b := by
  unfold toySerBlob toyDeBlob
  rw [show encList b.nonce = encList b.nonce ++ [] from (List.append_nil _).symm]
  simp only [decStr_encStr, decList_encList]

theorem toyAead_roundtrip (k n p c : List Nat)
    (h : toyAeadEncrypt k n p = some c) : toyAeadDecrypt k n c = some p := by
  have hc : c = k.length :: (k ++ (n ++ p)) := by
    simpa [toyAeadEncrypt] using h.symm
  subst hc
  have h1 : (k ++ (n ++ p)).take k.length = k := List.take_left _ _
  have h2 : (k ++ (n ++ p)).drop k.length = n ++ p := List.drop_left _ _
  simp [toyAeadDecrypt, h1, h2, List.take_left, List.drop_left]

theorem toyAead_binding (k k' n p c : List Nat)
    (h : toyAeadEncrypt k n p = some c) (hne : k' ≠ k) :
    toyAeadDecrypt k' n c = none := by
  have hc : c = k.length :: (k ++ (n ++ p)) := by
    simpa [toyAeadEncrypt] using h.symm
  subst hc
  simp only [toyAeadDecrypt]
  rw [if_neg]
  rintro ⟨hlen, htake, -⟩
  apply hne
  rw [← htake, ← hlen, List.take_left]

end Matrirc

/-- C1.  Credential round-trip: whenever `create_user(nick, pass, hs, s)`
successfully writes a session blob, `login(nick, pass)` decrypts it and
returns exactly the stored session (homeserver `hs` plus the serialized
matrix session of `s`).  The hypotheses state the round-trip laws of the
external serde/AEAD collaborators (`decrypt(k,n,encrypt(k,n,p)) = p`). -/
theorem credential_roundtrip (E : Matrirc.CryptoEnv) (allowRegister : Bool)
    (fs fs' : Matrirc.FsState) (nick pass hs : String)
    (auth : Matrirc.AuthSessionData) (salt nonce : List Nat)
    (hser : ∀ s, E.deSession (E.serSession s) = some s)
    (hblob : ∀ b, E.deBlob (E.serBlob b) = some b)
    (haead : ∀ k n p c, E.aeadEncrypt k n p = some c → E.aeadDecrypt k n c = some p)
    (hcreate : Matrirc.create_user E fs nick pass hs auth salt nonce = .ok fs') :
    Matrirc.login E allowRegister fs' nick pass =
      .ok (some (Matrirc.sessionOfAuth hs auth)) := by
  rcases hkdf : E.kdf pass salt with _ | key
  · simp [Matrirc.create_user, Matrirc.encrypt_blob, hkdf] at hcreate
  rcases henc : E.aeadEncrypt key nonce
      (E.serSession (Matrirc.sessionOfAuth hs auth)) with _ | ct
  · simp [Matrirc.create_user, Matrirc.encrypt_blob, hkdf, henc] at hcreate
  simp only [Matrirc.create_user, Matrirc.encrypt_blob, hkdf, henc] at hcreate
  cases hfsn : fs nick with
  | some old => rw [hfsn] at hcreate; exact absurd hcreate (by simp)
  | none =>
  rw [hfsn] at hcreate
  simp only [] at hcreate
  have hfs' : fs' = Matrirc.fsWrite fs nick
      (E.serBlob { version := "argon2+chacha20poly1305",
                   ciphertext := ct, salt := salt, nonce := nonce }) := by
    cases hcreate
    rfl
  subst hfs'
  have hdec := haead key nonce _ ct henc
  simp [Matrirc.login, Matrirc.fsWrite, Matrirc.decrypt_blob, hblob, hkdf, hdec, hser]

/-- Witness for C1 at concrete inputs: the sample user round-trips. -/
theorem credential_roundtrip_witness :
    Matrirc.login Matrirc.toyEnv false Matrirc.sampleFs "alice" "hunter2" =
      .ok (some (Matrirc.sessionOfAuth "hs.example" Matrirc.sampleAuth)) :=
  credential_roundtrip Matrirc.toyEnv false Matrirc.fsEmpty Matrirc.sampleFs
    "alice" "hunter2" "hs.example" Matrirc.sampleAuth [1, 2] [3]
    Matrirc.toyDeSession_toySerSession Matrirc.toyDeBlob_toySerBlob
    Matrirc.toyAead_roundtrip rfl

/-- C2.  Bad-password rejection: a stored blob created with `pass` makes
`login(nick, pass2)` fail with the bad-password error for any `pass2`
whose derived key differs (which, for the real Argon2, is every
`pass2 ≠ pass`); the session is never returned.  The hypotheses state the
AEAD authentication law (decryption under a different key fails) and that
the two derived keys differ. -/
theorem login_bad_password (E : Matrirc.CryptoEnv) (allowRegister : Bool)
    (fs fs' : Matrirc.FsState) (nick pass pass2 hs : String)
    (auth : Matrirc.AuthSessionData) (salt nonce key2 : List Nat)
    (hblob : ∀ b, E.deBlob (E.serBlob b) = some b)
    (hbind : ∀ k k' n p c, E.aeadEncrypt k n p = some c → k' ≠ k →
      E.aeadDecrypt k' n c = none)
    (hk2 : E.kdf pass2 salt = some key2)
    (hkne : E.kdf pass2 salt ≠ E.kdf pass salt)
    (hcreate : Matrirc.create_user E fs nick pass hs auth salt nonce = .ok fs') :
    Matrirc.login E allowRegister fs' nick pass2 = .error .badPassword := by
  rcases hkdf : E.kdf pass salt with _ | key
  · simp [Matrirc.create_user, Matrirc.encrypt_blob, hkdf] at hcreate
  rcases henc : E.aeadEncrypt key nonce
      (E.serSession (Matrirc.sessionOfAuth hs auth)) with _ | ct
  · simp [Matrirc.create_user, Matrirc.encrypt_blob, hkdf, henc] at hcreate
  simp only [Matrirc.create_user, Matrirc.encrypt_blob, hkdf, henc] at hcreate
  cases hfsn : fs nick with
  | some old => rw [hfsn] at hcreate; exact absurd hcreate (by simp)
  | none =>
  rw [hfsn] at hcreate
  simp only [] at hcreate
  have hfs' : fs' = Matrirc.fsWrite fs nick
      (E.serBlob { version := "argon2+chacha20poly1305",
                   ciphertext := ct, salt := salt, nonce := nonce }) := by
    cases hcreate
    rfl
  subst hfs'
  have hkey2ne : key2 ≠ key := by
    intro h
    rw [h, ← hkdf] at hk2
    exact hkne hk2
  have hdec := hbind key key2 nonce _ ct henc hkey2ne
  simp [Matrirc.login, Matrirc.fsWrite, Matrirc.decrypt_blob, hblob, hk2, hdec]

/-- C5.  Deduplicated naming: `insert_deduped(candidate, handler)` always
inserts under and returns a key not previously present in the map, and —
when none of the candidate family is present initially — `n` repeated
calls with the same candidate return `candidate, candidate_2, …,
candidate_n` in order.  (The fuel argument of the embedding is shown to
suffice for every finite map, which is the loop-termination content.) -/
theorem insert_deduped_spec :
    (∀ (V : Type) (m : SMap V) (c : String) (v : V),
        (Matrirc.insertDeduped m c v).1 ∉ m ∧
          (Matrirc.insertDeduped m c v).2 =
            m.insert (Matrirc.insertDeduped m c v).1 v) ∧
      (∀ (V : Type) (v : V) (n : Nat) (m : SMap V) (c : String),
        (∀ k, 1 ≤ k → Matrirc.dedupKey c k ∉ m) →
        (Matrirc.repeatInsertDeduped c v n m).1 =
          (List.range n).map (fun i => Matrirc.dedupKey c (i + 1))) := by
  constructor
  · intro V m c v
    exact Matrirc.insertDeduped_fresh m c v
  · intro V v n m c h
    have hmem : ∀ k, 1 ≤ k → (Matrirc.dedupKey c k ∈ m ↔ k < 1) := by
      intro k hk
      constructor
      · intro hmem
        exact absurd hmem (h k hk)
      · intro hlt
        omega
    rw [Matrirc.repeatInsertDeduped_from c v n 1 m le_rfl hmem]
    apply List.map_congr_left
    intro i _
    congr 1
    omega

/-- Witness for C5: three calls on the empty map yield `x, x_2, x_3`. -/
theorem insert_deduped_spec_witness :
    (Matrirc.repeatInsertDeduped "x" () 3 (∅ : SMap Unit)).1 =
      ["x", "x_2", "x_3"] := by
  have h := insert_deduped_spec.2 Unit () 3 ∅ "x"
    (fun k hk => AList.not_mem_empty _)
  rw [h]
  decide

namespace Matrirc

/-- C4 (amended).  The member/nick tables form a bijection with equal
cardinality after any sequence of `fill_room_members`, `member_join` and
`member_part` operations in which every joined (or enumerated) user id is
not already a member and fills enumerate pairwise-distinct user ids.
(Without the freshness precondition the code violates the claim:
`member_tables_counterexample`.) -/
theorem member_tables_bijection (inner : RoomTargetInner)
    (ops : List MemberOp)
    (hbij : MemberNickBij inner.members inner.names)
    (hok : MemberOpsOk inner ops) :
    MemberNickBij (applyMemberOps inner ops).members
        (applyMemberOps inner ops).names ∧
      (applyMemberOps inner ops).members.entries.length =
        (applyMemberOps inner ops).names.entries.length := by
  have h := memberNickBij_applyOps ops inner hbij hok
  exact ⟨h, memberNickBij_length_eq h⟩

/-- Witness for C4 at a concrete trace: a fresh join then a part. -/
theorem member_tables_bijection_witness :
    MemberNickBij
        (applyMemberOps (RoomTargetInner.query "t")
          [.join "u1" (some "bob"), .part "u1"]).members
        (applyMemberOps (RoomTargetInner.query "t")
          [.join "u1" (some "bob"), .part "u1"]).names ∧
      (applyMemberOps (RoomTargetInner.query "t")
          [.join "u1" (some "bob"), .part "u1"]).members.entries.length =
        (applyMemberOps (RoomTargetInner.query "t")
          [.join "u1" (some "bob"), .part "u1"]).names.entries.length :=
  member_tables_bijection (RoomTargetInner.query "t")
    [.join "u1" (some "bob"), .part "u1"]
    (by intro u k; simp [RoomTargetInner.query])
    (by exact ⟨rfl, trivial, trivial⟩)

/-- Counterexample to C4 as stated: a `member_join` for a user id already
present re-dedups the nick and leaves the stale `names` entry, so the two
tables end with different cardinalities (1 member, 2 names). -/
theorem member_tables_counterexample :
    ¬ (MemberNickBij
          (applyMemberOps (RoomTargetInner.query "t")
            [.join "u1" (some "bob"), .join "u1" (some "bob")]).members
          (applyMemberOps (RoomTargetInner.query "t")
            [.join "u1" (some "bob"), .join "u1" (some "bob")]).names ∧
        (applyMemberOps (RoomTargetInner.query "t")
            [.join "u1" (some "bob"), .join "u1" (some "bob")]).members.entries.length =
          (applyMemberOps (RoomTargetInner.query "t")
            [.join "u1" (some "bob"), .join "u1" (some "bob")]).names.entries.length) := by
  rintro ⟨-, hlen⟩
  revert hlen
  decide

/-- C6 (amended).  `localtime` (used for reaction/redaction timestamps)
implements exactly the claimed trichotomy; but `on_room_message`'s own
`time_prefix` deviates: it renders the full-date form whenever the event
is more than 10 s older than now (by whole seconds, saturating) — never
the plain `HH:MM:SS` form — and renders no prefix at all for events in
the future. -/
theorem timestamp_rules :
    (∀ tsMs nowMs : Int, localtime tsMs nowMs = specTimeRule tsMs nowMs) ∧
      (∀ nowSecs tsSecs : Nat,
        (roomMsgTimePfx nowSecs tsSecs = some .fullDate ↔
            tsSecs + 10 < nowSecs) ∧
          (roomMsgTimePfx nowSecs tsSecs = none ↔ nowSecs ≤ tsSecs + 10) ∧
          roomMsgTimePfx nowSecs tsSecs ≠ some .timeOnly) := by
  constructor
  · intro ts now
    unfold localtime specTimeRule
    split_ifs <;> first | rfl | omega | (exfalso; omega)
  · intro n t
    unfold roomMsgTimePfx
    by_cases h : n - 10 > t
    · rw [if_pos h]
      refine ⟨⟨fun _ => (by omega), fun _ => rfl⟩,
        ⟨fun hc => (by cases hc), fun hc => (by omega)⟩, by simp⟩
    · rw [if_neg h]
      refine ⟨⟨fun hc => (by cases hc), fun hc => (by omega)⟩,
        ⟨fun _ => (by omega), fun _ => rfl⟩, by simp⟩

/-- Counterexample to C6 as stated: one hour after an event,
`on_room_message` renders the full `YYYY-MM-DD` form where the claimed
rule demands the bracketed `HH:MM:SS` form. -/
theorem timestamp_rule_counterexample :
    ¬ (∀ nowSecs tsSecs : Nat,
        roomMsgTimePfx nowSecs tsSecs =
          specTimeRule (tsSecs * 1000) (nowSecs * 1000)) :=
  fun h => absurd (h 1000000 996400) (by decide)

/-- C7.  Self-echo suppression: an event whose `unsigned.transaction_id`
is set makes every handler — room message, reaction, redaction, member —
return before performing any call, so no IRC frame is produced for it. -/
theorem self_echo_suppression :
    (∀ fmtFull nowSecs roomJoined ev, ev.transaction_id.isSome →
        on_room_message fmtFull nowSecs roomJoined ev = []) ∧
      (∀ fmtTime fmtDate nowMs roomJoined ev emojiName cache fetched,
        ev.transaction_id.isSome →
        on_sync_reaction fmtTime fmtDate nowMs roomJoined ev emojiName
          cache fetched = []) ∧
      (∀ fmtTime fmtDate nowMs roomJoined ev cache fetched,
        ev.transaction_id.isSome →
        on_sync_room_redaction fmtTime fmtDate nowMs roomJoined ev
          cache fetched = []) ∧
      (∀ roomJoined ev, ev.transaction_id.isSome →
        on_room_member roomJoined ev = []) := by
  refine ⟨?_, ?_, ?_, ?_⟩
  · intro fmtFull nowSecs roomJoined ev h
    simp [on_room_message, h]
  · intro fmtTime fmtDate nowMs roomJoined ev emojiName cache fetched h
    simp [on_sync_reaction, h]
  · intro fmtTime fmtDate nowMs roomJoined ev cache fetched h
    simp [on_sync_room_redaction, h]
  · intro roomJoined ev h
    simp [on_room_member, h]

/-- Witness for C7: concrete events with a transaction id produce no
actions in any handler. -/
theorem self_echo_suppression_witness :
    on_room_message (fun _ => "") 100 true
        ⟨some "txn", "@bob:hs", 95, "$e1", .text "hello"⟩ = [] ∧
      on_sync_reaction (fun _ => "") (fun _ => "") 0 true
        ⟨some "txn", "@bob:hs", 0, "$e2", "+1"⟩ none none (.error "x") = [] ∧
      on_sync_room_redaction (fun _ => "") (fun _ => "") 0 true
        ⟨some "txn", "@bob:hs", 0, none, none⟩ none (.error "x") = [] ∧
      on_room_member true ⟨some "txn", "@bob:hs", none, .joined⟩ = [] :=
  ⟨self_echo_suppression.1 _ _ _ _ rfl,
    self_echo_suppression.2.1 _ _ _ _ _ _ _ _ rfl,
    self_echo_suppression.2.2.1 _ _ _ _ _ _ _ rfl,
    self_echo_suppression.2.2.2 _ _ rfl⟩

/-- Counterexample to C8 as stated: a plain text message is rendered and
sent without any store into the recent-message cache (`on_room_message`
performs a `send_text_to_irc` call and no `message_put` call). -/
theorem cache_before_send_counterexample :
    on_room_message (fun _ => "") 100 true
        ⟨none, "@bob:hs", 95, "$e1", .text "hello"⟩ =
      [.sendText .Privmsg "@bob:hs" "hello"] := by
  decide

/-- C8 (amended).  Only the reaction handler stores its rendered line in
the recent-message cache, and it does store it — under the reaction
event's id — before the `send_text_to_irc` call; text/emote/notice/media
and redaction renderings are never stored. -/
theorem reaction_cache_before_send (fmtTime fmtDate : Int → String)
    (nowMs : Int) (roomJoined : Bool) (ev : ReactionEvent)
    (emojiName : Option String) (cache : Option String)
    (fetched : Except String String)
    (htxn : ev.transaction_id = none) (hjoin : roomJoined = true) :
    on_sync_reaction fmtTime fmtDate nowMs roomJoined ev emojiName cache
        fetched =
      [.cachePut ev.event_id
        (reactionMessage fmtTime fmtDate nowMs ev emojiName cache fetched),
       .sendText .Privmsg ev.sender
        (reactionMessage fmtTime fmtDate nowMs ev emojiName cache fetched)] := by
  subst hjoin
  simp [on_sync_reaction, htxn]

/-- Witness for C8 (amended) at a concrete reaction event. -/
theorem reaction_cache_before_send_witness :
    on_sync_reaction (fun _ => "T") (fun _ => "D") 20000 true
        ⟨none, "@bob:hs", 0, "$e2", "+1"⟩ (some "thumbs up") (some "hello")
        (.error "x") =
      [.cachePut "$e2"
        (reactionMessage (fun _ => "T") (fun _ => "D") 20000
          ⟨none, "@bob:hs", 0, "$e2", "+1"⟩ (some "thumbs up") (some "hello")
          (.error "x")),
       .sendText .Privmsg "@bob:hs"
        (reactionMessage (fun _ => "T") (fun _ => "D") 20000
          ⟨none, "@bob:hs", 0, "$e2", "+1"⟩ (some "thumbs up") (some "hello")
          (.error "x"))] :=
  reaction_cache_before_send (fun _ => "T") (fun _ => "D") 20000 true
    ⟨none, "@bob:hs", 0, "$e2", "+1"⟩ (some "thumbs up") (some "hello")
    (.error "x") rfl rfl

/-- C9.  Writer order and termination: `ircd_sync_write` writes the
queue's frames in FIFO order; with no `ERROR` frame it writes everything
and exits when the queue closes; the first `ERROR` frame is written and
nothing after it. -/
theorem ircd_sync_write_spec :
    (∀ q, (∀ f ∈ q, isErrorFrame f = false) → ircd_sync_write q = q) ∧
      (∀ pre r post, (∀ f ∈ pre, isErrorFrame f = false) →
        ircd_sync_write (pre ++ .errorFrame r :: post) =
          pre ++ [.errorFrame r]) := by
  constructor
  · intro q hq
    induction q with
    | nil => rfl
    | cons f rest ih =>
      cases f with
      | errorFrame r =>
        exact absurd (hq (.errorFrame r) (List.mem_cons_self _ _))
          (by simp [isErrorFrame])
      | frame t =>
        simp only [ircd_sync_write]
        exact congrArg (fun l => IrcFrame.frame t :: l)
          (ih (fun f hf => hq f (List.mem_cons_of_mem _ hf)))
  · intro pre r post hpre
    induction pre with
    | nil => rfl
    | cons f rest ih =>
      cases f with
      | errorFrame r2 =>
        exact absurd (hpre (.errorFrame r2) (List.mem_cons_self _ _))
          (by simp [isErrorFrame])
      | frame t =>
        simp only [List.cons_append, ircd_sync_write]
        exact congrArg (fun l => IrcFrame.frame t :: l)
          (ih (fun f hf => hpre f (List.mem_cons_of_mem _ hf)))

/-- Witness for C9: a queue with an `ERROR` frame in the middle. -/
theorem ircd_sync_write_spec_witness :
    ircd_sync_write [.frame "a", .frame "b", .errorFrame "bye", .frame "c"] =
      [.frame "a", .frame "b", .errorFrame "bye"] := by
  have h := ircd_sync_write_spec.2 [.frame "a", .frame "b"] "bye" [.frame "c"]
    (by decide)
  simpa using h

theorem runSession_continue (ops : List SessionOp) :
    ∀ q, (∀ op ∈ ops, isStopOp op = false) →
      (runSession ⟨.Continue, q⟩ ops).2 = List.replicate ops.length .Continue := by
  induction ops with
  | nil => intro q _; rfl
  | cons op ops ih =>
    intro q hops
    cases op with
    | stop r =>
      exact absurd (hops (.stop r) (List.mem_cons_self _ _))
        (by simp [isStopOp])
    | running =>
      simp only [runSession, applySessionOp, runningNext, Option.toList,
        List.length_cons]
      rw [ih q (fun o ho => hops o (List.mem_cons_of_mem _ ho))]
      rfl

theorem runSession_break (ops : List SessionOp) :
    ∀ q, (runSession ⟨.Break, q⟩ ops).2 =
        List.replicate (ops.filter (fun op => !isStopOp op)).length .Break ∧
      (runSession ⟨.Break, q⟩ ops).1.flag = .Break := by
  induction ops with
  | nil => intro q; exact ⟨rfl, rfl⟩
  | cons op ops ih =>
    intro q
    cases op with
    | running =>
      simp only [runSession, applySessionOp, runningNext, Option.toList,
        List.filter]
      constructor
      · rw [(ih q).1]
        rfl
      · exact (ih q).2
    | stop r =>
      simp only [runSession, applySessionOp, Option.toList, List.filter,
        isStopOp]
      exact ih (q ++ [.errorFrame r])

theorem runSession_queue_mono (ops : List SessionOp) :
    ∀ (st : SessionState) (f : IrcFrame), f ∈ st.queue →
      f ∈ (runSession st ops).1.queue := by
  induction ops with
  | nil => intro st f hf; exact hf
  | cons op ops ih =>
    intro st f hf
    cases op with
    | running => exact ih _ f hf
    | stop r => exact ih _ f (by simp [applySessionOp, hf])

theorem runSession_stop_mem (post : List SessionOp) (reason : String) :
    ∀ (pre : List SessionOp) (st : SessionState),
      IrcFrame.errorFrame reason ∈
        (runSession st (pre ++ .stop reason :: post)).1.queue := by
  intro pre
  induction pre with
  | nil =>
    intro st
    simp only [List.nil_append, runSession, applySessionOp]
    exact runSession_queue_mono post _ _ (by simp)
  | cons op pre ih =>
    intro st
    simp only [List.cons_append, runSession]
    exact ih _

/-- C10.  Running-flag lifecycle: starting from `First`, a stop-free
sequence of `running()` calls observes `First` exactly once — on the
first call, which atomically advances the flag — and `Continue` ever
after; from `Break` every `running()` observes `Break` and no operation
leaves `Break`; and every `stop(reason)` enqueues an `ERROR` frame that
stays in the outbound queue. -/
theorem running_flag_lifecycle :
    (∀ (q : List IrcFrame) ops, (∀ op ∈ ops, isStopOp op = false) →
        (runSession ⟨.First, q⟩ ops).2 = firstThenContinue ops.length) ∧
      (∀ (q : List IrcFrame) ops,
        (runSession ⟨.Break, q⟩ ops).2 =
            List.replicate (ops.filter (fun op => !isStopOp op)).length
              .Break ∧
          (runSession ⟨.Break, q⟩ ops).1.flag = .Break) ∧
      (∀ (q : List IrcFrame) pre reason post,
        IrcFrame.errorFrame reason ∈
          (runSession ⟨.First, q⟩ (pre ++ .stop reason :: post)).1.queue) := by
  refine ⟨?_, ?_, ?_⟩
  · intro q ops hops
    cases ops with
    | nil => rfl
    | cons op ops =>
      cases op with
      | stop r =>
        exact absurd (hops (.stop r) (List.mem_cons_self _ _))
          (by simp [isStopOp])
      | running =>
        simp only [runSession, applySessionOp, runningNext, Option.toList,
          firstThenContinue, List.length_cons]
        rw [runSession_continue ops q
          (fun o ho => hops o (List.mem_cons_of_mem _ ho))]
        rfl
  · intro q ops
    exact runSession_break ops q
  · intro q pre reason post
    exact runSession_stop_mem post reason pre _

/-- Witness for C10: two `running()` calls then a `stop` then another
`running()`. -/
theorem running_flag_lifecycle_witness :
    (runSession ⟨.First, []⟩ [.running, .running]).2 =
        firstThenContinue 2 ∧
      IrcFrame.errorFrame "bye" ∈
        (runSession ⟨.First, []⟩
          ([.running] ++ .stop "bye" :: [.running])).1.queue :=
  ⟨running_flag_lifecycle.1 [] [.running, .running] (by decide),
    running_flag_lifecycle.2.2 [] [.running] "bye" [.running]⟩

/-- Counterexample to C3 as stated: when member enumeration fails inside
`try_room_target`, the `rooms`/`targets` maps are NOT left as they were
before the call — the fresh target-name insertion survives. -/
theorem try_room_target_no_rollback :
    (try_room_target demoMappings demoRoomCtx).1 =
        .error "could not get members" ∧
      (try_room_target demoMappings demoRoomCtx).2 ≠ demoMappings :=
  ⟨by rfl, fun h =>
    absurd (congrArg (fun s => AList.lookup "TeamChat" s.targets) h) (by decide)⟩

/-- C3 (amended).  If the room is new and member enumeration fails, the
error propagates out of `try_room_target` while the `targets` insertion
and the `rooms` insertion both remain, and `room_target` surfaces the
error as a notice queued on the `matrirc` target, which it returns. -/
theorem room_target_fill_failure (st : MappingsInner) (mt : RoomTargetInner)
    (room : RoomCtx)
    (habsent : st.rooms.lookup room.room_id = none)
    (hfail : room.membersRes = none) :
    (try_room_target st room).1 = .error "could not get members" ∧
      (try_room_target st room).2.targets =
        (insertDeduped st.targets (sanitize room.display_name) ()).2 ∧
      (try_room_target st room).2.rooms =
        st.rooms.insert room.room_id
          (RoomTargetInner.query
            (insertDeduped st.targets (sanitize room.display_name) ()).1) ∧
      (room_target st mt room).1 = (room_target st mt room).2.2 ∧
      (room_target st mt room).2.2.pending_messages =
        mt.pending_messages ++
          [⟨.Notice, "matrirc",
            "Could not find or create target: could not get members"⟩] := by
  simp only [room_target, try_room_target, fill_room_members, set_error,
    habsent, hfail]
  exact ⟨trivial, trivial, trivial, trivial, rfl⟩

/-- Witness for C3 (amended) at the demo inputs. -/
theorem room_target_fill_failure_witness :
    (try_room_target demoMappings demoRoomCtx).1 =
        .error "could not get members" ∧
      (try_room_target demoMappings demoRoomCtx).2.targets =
        (insertDeduped demoMappings.targets
          (sanitize demoRoomCtx.display_name) ()).2 ∧
      (try_room_target demoMappings demoRoomCtx).2.rooms =
        demoMappings.rooms.insert demoRoomCtx.room_id
          (RoomTargetInner.query
            (insertDeduped demoMappings.targets
              (sanitize demoRoomCtx.display_name) ()).1) ∧
      (room_target demoMappings (RoomTargetInner.query "matrirc")
          demoRoomCtx).1 =
        (room_target demoMappings (RoomTargetInner.query "matrirc")
          demoRoomCtx).2.2 ∧
      (room_target demoMappings (RoomTargetInner.query "matrirc")
          demoRoomCtx).2.2.pending_messages =
        (RoomTargetInner.query "matrirc").pending_messages ++
          [⟨.Notice, "matrirc",
            "Could not find or create target: could not get members"⟩] :=
  room_target_fill_failure demoMappings (RoomTargetInner.query "matrirc")
    demoRoomCtx rfl rfl

end Matrirc

/-- Witness for C2 at concrete inputs: the wrong password is rejected. -/
theorem login_bad_password_witness :
    Matrirc.login Matrirc.toyEnv false Matrirc.sampleFs "alice" "wrong" =
      .error .badPassword :=
  login_bad_password Matrirc.toyEnv false Matrirc.fsEmpty Matrirc.sampleFs
    "alice" "hunter2" "wrong" "hs.example" Matrirc.sampleAuth [1, 2] [3]
    (Matrirc.encStr "wrong" ++ [1, 2])
    Matrirc.toyDeBlob_toySerBlob Matrirc.toyAead_binding rfl (by decide) rfl
